import Mathlib

/-!
Shallow embedding of the `fix` crate (`src/lib.rs`): a fixed-point number
type `Fix<Bits, Base, Exp>` representing `bits × Base ^ Exp`, where the
scale (`Base`, `Exp`) is carried at the type level and `bits` is the only
runtime field.  The embedding mirrors the source: `Base` and `Exp` are
indices of the Lean type, the operator impls become functions on `Fix`,
and the trait bounds the impls place on the storage primitive `Bits`
become a record of operations (`Storage`).
-/

namespace FixCrate

/-- Record of the operations the source requires of the storage primitive
`Bits` through trait bounds: the operator traits `Add`, `Sub`, `Neg`, `Mul`,
`Div`, `Rem`; the compound-assignment traits `AddAssign` … `RemAssign`
(in Rust, `x op= y` on an integer primitive stores `x op y` back into `x`);
the crate's own `FromUnsigned` (materialize a type-level unsigned integer
as a runtime value) and `Pow` (raise to a non-negative power, delegating to
the primitive's repeated-multiplication `pow`); and the comparison traits
`PartialEq` / `Ord`. -/
structure Storage (Bits : Type) where
  add : Bits → Bits → Bits
  sub : Bits → Bits → Bits
  neg : Bits → Bits
  mul : Bits → Bits → Bits
  div : Bits → Bits → Bits
  rem : Bits → Bits → Bits
  addAssign : Bits → Bits → Bits
  subAssign : Bits → Bits → Bits
  mulAssign : Bits → Bits → Bits
  divAssign : Bits → Bits → Bits
  remAssign : Bits → Bits → Bits
  fromUnsigned : ℕ → Bits
  pow : Bits → ℕ → Bits
  beq : Bits → Bits → Bool
  cmp : Bits → Bits → Ordering

/-- Source `pub struct Fix<Bits, Base, Exp> { pub bits: Bits, marker: PhantomData }`:
fixed-point number _bits × Base^Exp_.  In the source `Base` (an `Unsigned`
type-level integer) and `Exp` (a signed type-level `Integer`) occupy no
runtime storage; here they are indices of the type. -/
structure Fix (Bits : Type) (Base : ℕ) (Exp : ℤ) where
  bits : Bits
  deriving DecidableEq

variable {Bits : Type}

/-- Source `Fix::new`: wraps a raw integer.  No validation, always succeeds. -/
def Fix.new (Base : ℕ) (Exp : ℤ) (bits : Bits) : Fix Bits Base Exp :=
  ⟨bits⟩

/-- Source `Fix::convert::<ToExp>`: change the exponent, keeping `Bits` and `Base`.
Source: `base = Bits::from_unsigned::<Base>()`, `diff` is the absolute value
of the type-level difference `Exp - ToExp`, `inverse` is `Exp - ToExp < 0`,
`ratio = base.pow(diff)`; divide `bits` by `ratio` when `inverse`, otherwise
multiply. -/
def Fix.convert (S : Storage Bits) {Base : ℕ} {Exp : ℤ}
    (v : Fix Bits Base Exp) (ToExp : ℤ) : Fix Bits Base ToExp :=
  let base := S.fromUnsigned Base
  let diff := (Exp - ToExp).natAbs
  let ratio := S.pow base diff
  if Exp - ToExp < 0 then
    Fix.new Base ToExp (S.div v.bits ratio)
  else
    Fix.new Base ToExp (S.mul v.bits ratio)

/-- Source `impl Neg for Fix`: `-(x B^E) = (-x) B^E`. -/
def Fix.negate (S : Storage Bits) {Base : ℕ} {Exp : ℤ}
    (v : Fix Bits Base Exp) : Fix Bits Base Exp :=
  Fix.new Base Exp (S.neg v.bits)

/-- Source `impl Add for Fix`: both operands at the same scale. -/
def Fix.addOp (S : Storage Bits) {Base : ℕ} {Exp : ℤ}
    (a b : Fix Bits Base Exp) : Fix Bits Base Exp :=
  Fix.new Base Exp (S.add a.bits b.bits)

/-- Source `impl Sub for Fix`: both operands at the same scale. -/
def Fix.subOp (S : Storage Bits) {Base : ℕ} {Exp : ℤ}
    (a b : Fix Bits Base Exp) : Fix Bits Base Exp :=
  Fix.new Base Exp (S.sub a.bits b.bits)

/-- Source `impl Mul<Fix<Bits, Base, RExp>> for Fix<Bits, Base, LExp>`: the output
type is `Fix<Bits, Base, Sum<LExp, RExp>>`. -/
def Fix.mulOp (S : Storage Bits) {Base : ℕ} {LExp RExp : ℤ}
    (a : Fix Bits Base LExp) (b : Fix Bits Base RExp) :
    Fix Bits Base (LExp + RExp) :=
  Fix.new Base (LExp + RExp) (S.mul a.bits b.bits)

/-- Source `impl Div<Fix<Bits, Base, RExp>> for Fix<Bits, Base, LExp>`: the output
type is `Fix<Bits, Base, Diff<LExp, RExp>>`. -/
def Fix.divOp (S : Storage Bits) {Base : ℕ} {LExp RExp : ℤ}
    (a : Fix Bits Base LExp) (b : Fix Bits Base RExp) :
    Fix Bits Base (LExp - RExp) :=
  Fix.new Base (LExp - RExp) (S.div a.bits b.bits)

/-- Source `impl Rem<Fix<Bits, Base, RExp>> for Fix<Bits, Base, LExp>`: the output
type is `Self`, i.e. the left operand's exponent, and the exponents need not
match. -/
def Fix.remOp (S : Storage Bits) {Base : ℕ} {LExp RExp : ℤ}
    (a : Fix Bits Base LExp) (b : Fix Bits Base RExp) :
    Fix Bits Base LExp :=
  Fix.new Base LExp (S.rem a.bits b.bits)

/-- Source `impl Mul<Bits> for Fix`: multiply by a raw storage value, scale
unchanged. -/
def Fix.mulBits (S : Storage Bits) {Base : ℕ} {Exp : ℤ}
    (v : Fix Bits Base Exp) (rhs : Bits) : Fix Bits Base Exp :=
  Fix.new Base Exp (S.mul v.bits rhs)

/-- Source `impl Div<Bits> for Fix`: divide by a raw storage value, scale
unchanged. -/
def Fix.divBits (S : Storage Bits) {Base : ℕ} {Exp : ℤ}
    (v : Fix Bits Base Exp) (rhs : Bits) : Fix Bits Base Exp :=
  Fix.new Base Exp (S.div v.bits rhs)

/-- Source `impl Rem<Bits> for Fix`: remainder by a raw storage value, scale
unchanged. -/
def Fix.remBits (S : Storage Bits) {Base : ℕ} {Exp : ℤ}
    (v : Fix Bits Base Exp) (rhs : Bits) : Fix Bits Base Exp :=
  Fix.new Base Exp (S.rem v.bits rhs)

/-- Source `impl AddAssign for Fix`: `self.bits += rhs.bits`, modelled as returning
the updated value. -/
def Fix.addAssignOp (S : Storage Bits) {Base : ℕ} {Exp : ℤ}
    (a b : Fix Bits Base Exp) : Fix Bits Base Exp :=
  Fix.new Base Exp (S.addAssign a.bits b.bits)

/-- Source `impl SubAssign for Fix`: `self.bits -= rhs.bits`. -/
def Fix.subAssignOp (S : Storage Bits) {Base : ℕ} {Exp : ℤ}
    (a b : Fix Bits Base Exp) : Fix Bits Base Exp :=
  Fix.new Base Exp (S.subAssign a.bits b.bits)

/-- Source `impl MulAssign<Bits> for Fix`: `self.bits *= rhs`. -/
def Fix.mulAssignBits (S : Storage Bits) {Base : ℕ} {Exp : ℤ}
    (v : Fix Bits Base Exp) (rhs : Bits) : Fix Bits Base Exp :=
  Fix.new Base Exp (S.mulAssign v.bits rhs)

/-- Source `impl DivAssign<Bits> for Fix`: `self.bits /= rhs`. -/
def Fix.divAssignBits (S : Storage Bits) {Base : ℕ} {Exp : ℤ}
    (v : Fix Bits Base Exp) (rhs : Bits) : Fix Bits Base Exp :=
  Fix.new Base Exp (S.divAssign v.bits rhs)

/-- Source `impl RemAssign<Fix<Bits, Base, RExp>> for Fix<Bits, Base, LExp>`:
`self.bits %= rhs.bits`; the right operand's exponent need not match and the
left operand's scale is kept. -/
def Fix.remAssignOp (S : Storage Bits) {Base : ℕ} {LExp RExp : ℤ}
    (a : Fix Bits Base LExp) (b : Fix Bits Base RExp) :
    Fix Bits Base LExp :=
  Fix.new Base LExp (S.remAssign a.bits b.bits)

/-- Source `impl RemAssign<Bits> for Fix`: `self.bits %= rhs`. -/
def Fix.remAssignBits (S : Storage Bits) {Base : ℕ} {Exp : ℤ}
    (v : Fix Bits Base Exp) (rhs : Bits) : Fix Bits Base Exp :=
  Fix.new Base Exp (S.remAssign v.bits rhs)

/-- Source `impl PartialEq for Fix`: `self.bits == rhs.bits`, defined only between
values of the same `Bits`, `Base` and `Exp`. -/
def Fix.beqOp (S : Storage Bits) {Base : ℕ} {Exp : ℤ}
    (a b : Fix Bits Base Exp) : Bool :=
  S.beq a.bits b.bits

/-- Source `impl Ord for Fix`: `self.bits.cmp(&rhs.bits)`, defined only between
values of the same `Bits`, `Base` and `Exp`. -/
def Fix.cmpOp (S : Storage Bits) {Base : ℕ} {Exp : ℤ}
    (a b : Fix Bits Base Exp) : Ordering :=
  S.cmp a.bits b.bits

/-- The signed storage primitives (`i8` … `i128`) in their common
no-overflow semantics: unbounded `ℤ`.  Rust signed division truncates
toward zero (`Int.tdiv`) and `%` is the remainder with the dividend's sign
(`Int.tmod`); `FromUnsigned` materializes the type-level number; `pow` is
the primitive's repeated multiplication, `x ^ n`; `x op= y` on a primitive
stores `x op y`. -/
def intStorage : Storage ℤ where
  add := fun a b => a + b
  sub := fun a b => a - b
  neg := fun a => -a
  mul := fun a b => a * b
  div := Int.tdiv
  rem := Int.tmod
  addAssign := fun a b => a + b
  subAssign := fun a b => a - b
  mulAssign := fun a b => a * b
  divAssign := Int.tdiv
  remAssign := Int.tmod
  fromUnsigned := fun n => (n : ℤ)
  pow := fun x n => x ^ n
  beq := fun a b => a == b
  cmp := fun a b => compare a b

/-- Lower bound of `i32`. -/
def i32min : ℤ := -(2 ^ 31)

/-- Upper bound of `i32`. -/
def i32max : ℤ := 2 ^ 31 - 1

/-- Two's-complement reduction into the `i32` range: the result of an `i32`
operation whose mathematical value is `x` when Rust's release-mode wrapping
semantics applies. -/
def wrap32 (x : ℤ) : ℤ := (x + 2 ^ 31) % 2 ^ 32 - 2 ^ 31

/-- Rust `i32::pow` under release-mode wrapping: repeated multiplication
starting from 1, wrapping at every step. -/
def wpow32 (x : ℤ) : ℕ → ℤ
  | 0 => 1
  | n + 1 => wrap32 (wpow32 x n * x)

/-- The `i32` storage primitive with release-mode (two's-complement
wrapping) arithmetic.  Division by zero panics in Rust in every mode; a
total model has to return something there, and it inherits `Int.tdiv x 0 =
0` (the checked model `convertChecked32` below makes the panic explicit). -/
def i32Storage : Storage ℤ where
  add := fun a b => wrap32 (a + b)
  sub := fun a b => wrap32 (a - b)
  neg := fun a => wrap32 (-a)
  mul := fun a b => wrap32 (a * b)
  div := fun a b => wrap32 (Int.tdiv a b)
  rem := fun a b => wrap32 (Int.tmod a b)
  addAssign := fun a b => wrap32 (a + b)
  subAssign := fun a b => wrap32 (a - b)
  mulAssign := fun a b => wrap32 (a * b)
  divAssign := fun a b => wrap32 (Int.tdiv a b)
  remAssign := fun a b => wrap32 (Int.tmod a b)
  fromUnsigned := fun n => wrap32 n
  pow := wpow32
  beq := fun a b => a == b
  cmp := fun a b => compare a b

/-- Checked `i32` value: `some x` when `x` is representable, `none` for the
overflow panic of Rust's checked (debug-mode) arithmetic. -/
def checked32 (x : ℤ) : Option ℤ :=
  if i32min ≤ x ∧ x ≤ i32max then some x else none

/-- Checked `i32` multiplication: fails exactly on overflow. -/
def cmul32 (a b : ℤ) : Option ℤ := checked32 (a * b)

/-- Checked `i32` division: fails exactly on a zero divisor or on overflow
(`i32::MIN / -1`); these panics are unconditional in Rust. -/
def cdiv32 (a b : ℤ) : Option ℤ :=
  if b = 0 then none else checked32 (Int.tdiv a b)

/-- Checked `i32::pow`: repeated multiplication from 1, failing as soon as a
step overflows. -/
def cpow32 (x : ℤ) : ℕ → Option ℤ
  | 0 => some 1
  | n + 1 => (cpow32 x n).bind fun acc => cmul32 acc x

/-- Source `Fix::convert` instantiated at checked `i32` storage, recording a
panic of the underlying arithmetic as `none`: compute `ratio =
base.pow(diff)` by checked repeated multiplication, then divide or multiply
`bits` by it, checked, following the sign of `Exp - ToExp`. -/
def convertChecked32 (Base : ℕ) (Exp ToExp : ℤ) (bits : ℤ) : Option ℤ :=
  (cpow32 (Base : ℤ) (Exp - ToExp).natAbs).bind fun ratio =>
    if Exp - ToExp < 0 then cdiv32 bits ratio else cmul32 bits ratio

/-- Helper: `Fix.convert` at the unbounded signed storage, on an explicit
`bits` value: the branch on the sign of `Exp - ToExp` selects truncating
division or multiplication by `Base ^ |Exp - ToExp|`. -/
theorem convert_int_mk (Base : ℕ) (Exp ToExp : ℤ) (x : ℤ) :
    Fix.convert intStorage (Fix.new Base Exp x) ToExp =
      Fix.new Base ToExp
        (if Exp - ToExp < 0 then
          Int.tdiv x ((Base : ℤ) ^ (Exp - ToExp).natAbs)
        else
          x * ((Base : ℤ) ^ (Exp - ToExp).natAbs)) := by
  unfold Fix.convert Fix.new
  split <;> rfl

/-- Helper: a value already in the `i32` range is fixed by the
two's-complement reduction. -/
theorem wrap32_eq_self {x : ℤ} (h1 : i32min ≤ x) (h2 : x ≤ i32max) :
    wrap32 x = x := by
  unfold wrap32 i32min i32max at *
  omega

/-- Helper: reducing one addend before an addition does not change the
reduced sum. -/
theorem wrap32_add_wrap_left (x y : ℤ) :
    wrap32 (wrap32 x + y) = wrap32 (x + y) := by
  unfold wrap32
  omega

/-- Helper: reducing the other addend before an addition does not change the
reduced sum. -/
theorem wrap32_add_wrap_right (x y : ℤ) :
    wrap32 (x + wrap32 y) = wrap32 (x + y) := by
  unfold wrap32
  omega

/-- Helper: the checked range test succeeds only with its input. -/
theorem checked32_eq_some {y r : ℤ} (h : checked32 y = some r) : r = y := by
  unfold checked32 at h
  split at h
  · exact (Option.some.injEq ..).mp h.symm
  · exact absurd h (by simp)

/-- Helper: checked repeated multiplication computes the mathematical power
whenever it succeeds. -/
theorem cpow32_eq_some {x : ℤ} :
    ∀ {n : ℕ} {r : ℤ}, cpow32 x n = some r → r = x ^ n := by
  intro n
  induction n with
  | zero =>
    intro r h
    simp [cpow32] at h
    simp [h.symm]
  | succ n ih =>
    intro r h
    simp only [cpow32, Option.bind_eq_some] at h
    obtain ⟨acc, hacc, hmul⟩ := h
    have := checked32_eq_some hmul
    rw [this, ih hacc, pow_succ]

/-- C1: `convert` computes `diff = Exp - ToExp` and `ratio = Base^|diff|` by
the storage type's own repeated-multiplication `pow` (for the integer
storage, `pow x 0 = 1` and `pow x (n+1) = pow x n * x`); when `diff < 0` the
result's bits are `bits / ratio`, otherwise `bits * ratio`; the result keeps
the same `Bits` and `Base` and has exponent `ToExp` (the type of
`Fix.convert`).  In base 10, `Value(15_000_000, exp=-3).convert(exp=3) =
Value(15, exp=3)` and `Value(15, exp=3).convert(exp=-3) =
Value(15_000_000, exp=-3)`. -/
theorem convert_computes_diff_ratio_and_branches :
    (∀ (Bits : Type) (S : Storage Bits) (Base : ℕ) (Exp ToExp : ℤ)
        (v : Fix Bits Base Exp),
      Fix.convert S v ToExp =
        if Exp - ToExp < 0 then
          Fix.new Base ToExp
            (S.div v.bits (S.pow (S.fromUnsigned Base) (Exp - ToExp).natAbs))
        else
          Fix.new Base ToExp
            (S.mul v.bits (S.pow (S.fromUnsigned Base) (Exp - ToExp).natAbs)))
    ∧ (∀ x : ℤ, intStorage.pow x 0 = 1)
    ∧ (∀ (x : ℤ) (n : ℕ), intStorage.pow x (n + 1) = intStorage.pow x n * x)
    ∧ Fix.convert intStorage (Fix.new 10 (-3) 15000000) 3 = Fix.new 10 3 15
    ∧ Fix.convert intStorage (Fix.new 10 3 15) (-3) = Fix.new 10 (-3) 15000000 :=
  ⟨fun _ _ _ _ _ _ => rfl, fun x => pow_zero x, fun x n => pow_succ x n,
    by decide, by decide⟩

/-- C2: multiplication of two scaled values adds the exponents (visible in
the result type of `Fix.mulOp`) and multiplies the bits; division subtracts
the exponents and divides the bits.  In base 10, `Value(2, exp=3) ×
Value(3, exp=-3) = Value(6, exp=0)` and `Value(6, exp=3) ÷ Value(2, exp=3)
= Value(3, exp=0)`. -/
theorem mul_div_scale_algebra :
    (∀ (Bits : Type) (S : Storage Bits) (Base : ℕ) (LExp RExp : ℤ)
        (a : Fix Bits Base LExp) (b : Fix Bits Base RExp),
      Fix.mulOp S a b = Fix.new Base (LExp + RExp) (S.mul a.bits b.bits)
        ∧ Fix.divOp S a b = Fix.new Base (LExp - RExp) (S.div a.bits b.bits))
    ∧ Fix.mulOp intStorage (Fix.new 10 3 2) (Fix.new 10 (-3) 3) = Fix.new 10 0 6
    ∧ Fix.divOp intStorage (Fix.new 10 3 6) (Fix.new 10 3 2) = Fix.new 10 0 3 :=
  ⟨fun _ _ _ _ _ _ _ => ⟨rfl, rfl⟩, rfl, rfl⟩

/-- C3: converting a value to its own exponent is the identity: `diff = 0`,
the multiply branch is taken and `ratio = Base ^ 0 = 1`.  Stated for the
unbounded signed storage (where it is unconditional: a multiplication by 1
cannot overflow) and for the wrapping `i32` storage on representable
bits. -/
theorem convert_same_exponent_identity :
    (∀ (Base : ℕ) (Exp : ℤ) (v : Fix ℤ Base Exp),
        Fix.convert intStorage v Exp = v)
      ∧ (∀ (Base : ℕ) (Exp : ℤ) (v : Fix ℤ Base Exp),
          i32min ≤ v.bits → v.bits ≤ i32max →
            Fix.convert i32Storage v Exp = v) := by
  constructor
  · intro Base Exp v
    obtain ⟨x⟩ := v
    show Fix.convert intStorage (Fix.new Base Exp x) Exp = Fix.new Base Exp x
    rw [convert_int_mk]
    simp [Fix.new]
  · intro Base Exp v h1 h2
    obtain ⟨x⟩ := v
    unfold Fix.convert
    simp only [sub_self, Int.natAbs_zero, lt_self_iff_false, if_false]
    show Fix.new _ _ (i32Storage.mul x (wpow32 (wrap32 Base) 0)) = _
    unfold Fix.new
    show Fix.mk (wrap32 (x * 1)) = Fix.mk x
    rw [mul_one, wrap32_eq_self h1 h2]

/-- C4: conversion is invertible when no step overflows (the unbounded
signed storage is the no-overflow semantics) and every division performed is
exact: converting from `E1` to `E2` and back returns the original value.
The only division happens on the way with the smaller exponent, so exactness
is the hypothesis that `Base ^ |E2 - E1|` divides the bits when `E1 < E2`;
in the other direction the division is of the just-formed product and is
automatically exact. -/
theorem convert_roundtrip (Base : ℕ) (E1 E2 : ℤ) (v : Fix ℤ Base E1)
    (hB : 1 ≤ Base)
    (hdvd : E1 < E2 → ((Base : ℤ) ^ (E2 - E1).natAbs) ∣ v.bits) :
    Fix.convert intStorage (Fix.convert intStorage v E2) E1 = v := by
  obtain ⟨x⟩ := v
  have hb0 : ((Base : ℤ)) ≠ 0 := by
    simp only [ne_eq, Int.natCast_eq_zero]
    omega
  have hsym : (E2 - E1).natAbs = (E1 - E2).natAbs := by
    rw [← Int.natAbs_neg, neg_sub]
  show Fix.convert intStorage
      (Fix.convert intStorage (Fix.new Base E1 x) E2) E1 = Fix.new Base E1 x
  rw [convert_int_mk, convert_int_mk]
  rcases lt_trichotomy E1 E2 with h | h | h
  · have h1 : E1 - E2 < 0 := by omega
    have h2 : ¬ E2 - E1 < 0 := by omega
    have hd : ((Base : ℤ) ^ (E1 - E2).natAbs) ∣ x := by
      rw [← hsym]
      exact hdvd h
    rw [if_pos h1, if_neg h2, hsym]
    exact congrArg (Fix.new Base E1) (Int.tdiv_mul_cancel hd)
  · subst h
    have h2 : ¬ E1 - E1 < 0 := by omega
    rw [if_neg h2, if_neg h2]
    simp [Fix.new]
  · have h1 : ¬ E1 - E2 < 0 := by omega
    have h2 : E2 - E1 < 0 := by omega
    rw [if_neg h1, if_pos h2, hsym]
    exact congrArg (Fix.new Base E1)
      (Int.mul_tdiv_cancel x (pow_ne_zero _ hb0))

/-- Witness for the round trip: `Value(15_000_000, exp=-3)` in base 10,
converted to exponent 3 and back; the exactness hypothesis holds because
`10^6` divides `15_000_000`. -/
theorem convert_roundtrip_witness :
    Fix.convert intStorage
        (Fix.convert intStorage (Fix.new 10 (-3) 15000000) 3) (-3)
      = Fix.new 10 (-3) 15000000 :=
  convert_roundtrip 10 (-3) 3 (Fix.new 10 (-3) 15000000) (by norm_num)
    (fun _ => ⟨15, by decide⟩)

/-- C5: the remainder of two scaled values, whose exponents need not match,
keeps the left operand's exponent (the result type of `Fix.remOp` and
`Fix.remAssignOp`) and takes the remainder of the bits; remainder-assign
does the same in place.  In base 10, `Value(6, exp=3) % Value(5, exp=-3) =
Value(1, exp=3)`. -/
theorem rem_keeps_left_exponent :
    (∀ (Bits : Type) (S : Storage Bits) (Base : ℕ) (LExp RExp : ℤ)
        (a : Fix Bits Base LExp) (b : Fix Bits Base RExp),
      Fix.remOp S a b = Fix.new Base LExp (S.rem a.bits b.bits)
        ∧ Fix.remAssignOp S a b = Fix.new Base LExp (S.remAssign a.bits b.bits))
    ∧ Fix.remOp intStorage (Fix.new 10 3 6) (Fix.new 10 (-3) 5) = Fix.new 10 3 1
    ∧ Fix.remAssignOp intStorage (Fix.new 10 3 6) (Fix.new 10 (-3) 5)
        = Fix.new 10 3 1 :=
  ⟨fun _ _ _ _ _ _ _ => ⟨rfl, rfl⟩, by decide, by decide⟩

/-- C6: between commensurate values (same `Bits`, `Base`, `Exp` — enforced
by the types of `Fix.beqOp` and `Fix.cmpOp`), equality holds exactly when
the bits are equal, and comparison returns exactly the comparison of the
bits; the scale indices contribute nothing further. -/
theorem eq_ord_delegate_to_bits (Base : ℕ) (Exp : ℤ) (a b : Fix ℤ Base Exp) :
    (Fix.beqOp intStorage a b = true ↔ a.bits = b.bits)
      ∧ (a = b ↔ a.bits = b.bits)
      ∧ Fix.cmpOp intStorage a b = compare a.bits b.bits := by
  refine ⟨by simp [Fix.beqOp, intStorage], ?_, rfl⟩
  constructor
  · intro h
    rw [h]
  · intro h
    cases a
    cases b
    cases h
    rfl

/-- C7: extracting the raw integer from a freshly constructed scaled value
returns it unchanged; `Fix.new` is a total function (no validation). -/
theorem new_bits_roundtrip :
    ∀ (Bits : Type) (Base : ℕ) (Exp : ℤ) (x : Bits),
      (Fix.new Base Exp x).bits = x :=
  fun _ _ _ _ => rfl

/-- C8: addition of commensurate values is commutative and associative, both
in the unbounded no-overflow semantics and in the wrapping (release-mode
two's-complement) `i32` semantics, so overflow behaving as the storage
type's native arithmetic preserves both laws. -/
theorem add_comm_assoc :
    (∀ (Base : ℕ) (Exp : ℤ) (a b c : Fix ℤ Base Exp),
        Fix.addOp intStorage a b = Fix.addOp intStorage b a
          ∧ Fix.addOp intStorage (Fix.addOp intStorage a b) c
              = Fix.addOp intStorage a (Fix.addOp intStorage b c))
      ∧ (∀ (Base : ℕ) (Exp : ℤ) (a b c : Fix ℤ Base Exp),
          Fix.addOp i32Storage a b = Fix.addOp i32Storage b a
            ∧ Fix.addOp i32Storage (Fix.addOp i32Storage a b) c
                = Fix.addOp i32Storage a (Fix.addOp i32Storage b c)) := by
  constructor
  · intro Base Exp a b c
    constructor
    · show Fix.new Base Exp (a.bits + b.bits) = Fix.new Base Exp (b.bits + a.bits)
      rw [Int.add_comm]
    · show Fix.new Base Exp (a.bits + b.bits + c.bits)
          = Fix.new Base Exp (a.bits + (b.bits + c.bits))
      rw [Int.add_assoc]
  · intro Base Exp a b c
    constructor
    · show Fix.new Base Exp (wrap32 (a.bits + b.bits))
          = Fix.new Base Exp (wrap32 (b.bits + a.bits))
      rw [Int.add_comm]
    · show Fix.new Base Exp (wrap32 (wrap32 (a.bits + b.bits) + c.bits))
          = Fix.new Base Exp (wrap32 (a.bits + wrap32 (b.bits + c.bits)))
      rw [wrap32_add_wrap_left, wrap32_add_wrap_right, Int.add_assoc]

/-- C9: the component raises no runtime error of its own.  Over checked
`i32` arithmetic, `convert` fails exactly when an underlying operation
fails — overflow while computing the conversion ratio `base^|diff|`
(`cpow32`), then division by zero or division overflow (`cdiv32`) on the
divide branch, or multiplication overflow (`cmul32`) on the multiply
branch — and when every underlying operation succeeds the result is
exactly the untrapped, untransformed mathematical value, the one the
unbounded-storage `Fix.convert` computes.  (Construction, extraction and
comparison are total functions of the model and cannot fail at all.) -/
theorem convert_only_inherited_failures :
    (∀ (Base : ℕ) (Exp ToExp bits : ℤ),
        (convertChecked32 Base Exp ToExp bits = none ↔
          cpow32 (Base : ℤ) (Exp - ToExp).natAbs = none ∨
            ∃ r, cpow32 (Base : ℤ) (Exp - ToExp).natAbs = some r ∧
              (if Exp - ToExp < 0 then cdiv32 bits r else cmul32 bits r)
                = none))
      ∧ (∀ (Base : ℕ) (Exp ToExp bits c : ℤ),
          convertChecked32 Base Exp ToExp bits = some c →
            c = (Fix.convert intStorage (Fix.new Base Exp bits) ToExp).bits) := by
  constructor
  · intro Base Exp ToExp bits
    unfold convertChecked32
    cases h : cpow32 (Base : ℤ) (Exp - ToExp).natAbs with
    | none => simp [h]
    | some r => simp [h]
  · intro Base Exp ToExp bits c h
    unfold convertChecked32 at h
    rw [Option.bind_eq_some] at h
    obtain ⟨r, hr, hbr⟩ := h
    have hrval : r = (Base : ℤ) ^ (Exp - ToExp).natAbs := cpow32_eq_some hr
    rw [convert_int_mk]
    show c = if Exp - ToExp < 0 then
        Int.tdiv bits ((Base : ℤ) ^ (Exp - ToExp).natAbs)
      else bits * ((Base : ℤ) ^ (Exp - ToExp).natAbs)
    by_cases hlt : Exp - ToExp < 0
    · rw [if_pos hlt] at hbr ⊢
      unfold cdiv32 at hbr
      split at hbr
      · exact absurd hbr (by simp)
      · rw [← hrval]
        exact (checked32_eq_some hbr).symm ▸ rfl
    · rw [if_neg hlt] at hbr ⊢
      rw [← hrval]
      exact checked32_eq_some hbr

/-- C10: each compound-assignment operation leaves the value the
corresponding non-assigning operator produces, at the integer storage
(where Rust's `x op= y` on a primitive stores `x op y`): add-, sub-,
mul-by-raw, div-by-raw, rem-by-raw, and rem by a scaled value of a possibly
different exponent. -/
theorem assign_ops_agree_with_ops :
    ∀ (Base : ℕ) (Exp LExp RExp : ℤ) (a b : Fix ℤ Base Exp) (k : ℤ)
      (c : Fix ℤ Base LExp) (d : Fix ℤ Base RExp),
      Fix.addAssignOp intStorage a b = Fix.addOp intStorage a b
        ∧ Fix.subAssignOp intStorage a b = Fix.subOp intStorage a b
        ∧ Fix.mulAssignBits intStorage a k = Fix.mulBits intStorage a k
        ∧ Fix.divAssignBits intStorage a k = Fix.divBits intStorage a k
        ∧ Fix.remAssignBits intStorage a k = Fix.remBits intStorage a k
        ∧ Fix.remAssignOp intStorage c d = Fix.remOp intStorage c d
        ∧ Fix.addAssignOp i32Storage a b = Fix.addOp i32Storage a b
        ∧ Fix.subAssignOp i32Storage a b = Fix.subOp i32Storage a b
        ∧ Fix.mulAssignBits i32Storage a k = Fix.mulBits i32Storage a k
        ∧ Fix.divAssignBits i32Storage a k = Fix.divBits i32Storage a k
        ∧ Fix.remAssignBits i32Storage a k = Fix.remBits i32Storage a k
        ∧ Fix.remAssignOp i32Storage c d = Fix.remOp i32Storage c d :=
  fun _ _ _ _ _ _ _ _ _ =>
    ⟨rfl, rfl, rfl, rfl, rfl, rfl, rfl, rfl, rfl, rfl, rfl, rfl⟩

end FixCrate
